import Mathlib

/-!
Shallow embedding of the aggregation layer of the World-Trade-Dashboard
repository (src/trade_api.py) together with the SQLite store it queries.

The store is the single table `Ports` with columns
`year, month, country, ISO3, portcalls, import, export`; we model it as a
list of records.  Numeric columns are modelled as exact rationals: the
trade volumes in the database are plain numbers and every claim under
study is about exact decimal values, which the rational embedding
reproduces.

Host-semantics conventions used throughout (documented at each definition):
  - an SQL aggregate `SUM(col)` over an empty row set is NULL, so the
    query layer returns `Option`;
  - Python-level exceptions are modelled with `Except PyError`;
  - results of pandas/numpy reductions are modelled with `NFloat`,
    which carries the IEEE special values nan and plus/minus infinity
    that numpy produces instead of raising on division by zero.
-/

namespace TradeAPI

/-- One row of the `Ports` table.  The source columns `import` and
`export` are Lean keywords, so the fields are named `imp` and `expt`. -/
structure PortRecord where
  year : ℤ
  month : ℤ
  country : String
  iso3 : String
  portcalls : ℤ
  imp : ℚ
  expt : ℚ
deriving DecidableEq, Repr

/-- The `Ports` table: the store the API queries. -/
abbrev Store := List PortRecord

/-- Python exceptions that the embedded code can raise. -/
inductive PyError where
  /-- The built-in exception Python raises on division by zero. -/
  | zeroDivisionError
  /-- The built-in exception Python raises on `None + None`. -/
  | typeError
  /-- The distinct application-level error condition named by the spec
  (`DivisionUndefined`).  No function of the source ever produces it; it
  exists so that the spec claims about it can be stated and compared
  with what the code actually raises. -/
  | divisionUndefined
deriving DecidableEq, Repr

/-- A numpy floating-point scalar, as returned by pandas reductions:
either an ordinary (here: exact rational) value or one of the IEEE
special values that numpy produces instead of raising. -/
inductive NFloat where
  | nan
  | inf
  | ninf
  | val (q : ℚ)
deriving DecidableEq, Repr

/-- numpy float64 division `a / b`: division by zero yields nan
(for `0 / 0`) or a signed infinity, with a RuntimeWarning but no
exception. -/
def nfDivQ (a b : ℚ) : NFloat :=
  if b = 0 then
    if a = 0 then NFloat.nan
    else if 0 < a then NFloat.inf
    else NFloat.ninf
  else NFloat.val (a / b)

/-- numpy multiplication of a float64 scalar by the literal `100`:
nan and the infinities absorb it. -/
def nfMul100 : NFloat → NFloat
  | NFloat.nan => NFloat.nan
  | NFloat.inf => NFloat.inf
  | NFloat.ninf => NFloat.ninf
  | NFloat.val q => NFloat.val (q * 100)

/-- Round-half-to-even to an integer: the tie-breaking rule of the
built-in Python `round`. -/
def roundHalfEven (q : ℚ) : ℤ :=
  if q - (⌊q⌋ : ℚ) < 1 / 2 then ⌊q⌋
  else if 1 / 2 < q - (⌊q⌋ : ℚ) then ⌊q⌋ + 1
  else if ⌊q⌋ % 2 = 0 then ⌊q⌋ else ⌊q⌋ + 1

/-- Python `round(x, 1)` on an ordinary number: round `10 * x` half to
even, then divide by ten. -/
def pyRound1 (q : ℚ) : ℚ :=
  (roundHalfEven (q * 10) : ℚ) / 10

/-- Python `round(x, 1)` on a numpy scalar: nan and the infinities are
returned unchanged. -/
def nfRound1 : NFloat → NFloat
  | NFloat.nan => NFloat.nan
  | NFloat.inf => NFloat.inf
  | NFloat.ninf => NFloat.ninf
  | NFloat.val q => NFloat.val (pyRound1 q)

/-- SQL `SUM` over the listed values: NULL (`none`) when the row set is
empty, otherwise the sum. -/
def sqlSUM (xs : List ℚ) : Option ℚ :=
  match xs with
  | [] => none
  | _ => some xs.sum

/-- SQL `SUM` over an integer column (`portcalls`): NULL on an empty row
set, otherwise the integer sum. -/
def sqlSUMInt (xs : List ℤ) : Option ℤ :=
  match xs with
  | [] => none
  | _ => some xs.sum

/-- Model of SQLite `SELECT DISTINCT col`: the rows stream in table-scan
order through a temporary b-tree that serves only as a duplicate filter,
so each value is emitted at its first occurrence and the output is
deduplicated but not sorted. -/
def sqlDISTINCT {α : Type} [DecidableEq α] (xs : List α) : List α :=
  xs.foldl (fun acc y => if y ∈ acc then acc else acc ++ [y]) []

/-- Model of `load_years`: `SELECT DISTINCT year FROM Ports`, the years
in first-occurrence scan order. -/
def load_years (store : Store) : List ℤ :=
  sqlDISTINCT (store.map (fun r => r.year))

/-- Model of `load_countries`: `SELECT DISTINCT country FROM Ports`. -/
def load_countries (store : Store) : List String :=
  sqlDISTINCT (store.map (fun r => r.country))

/-- Model of `total_ships`: `SELECT SUM(portcalls) FROM Ports WHERE year = ?`,
returning the single fetched value — NULL when no row matches. -/
def total_ships (store : Store) (year : ℤ) : Option ℤ :=
  sqlSUMInt ((store.filter (fun r => r.year == year)).map (fun r => r.portcalls))

/-- Model of `ie_dist`: runs `SELECT SUM(import), SUM(export) FROM Ports WHERE
year = ?`, adds the two fetched values and divides each by the total.
With no matching row both sums are NULL and the Python addition
`None + None` raises TypeError before any division; with a zero total
the unguarded division `imports / total` raises ZeroDivisionError.
Otherwise both percentages are rounded to one decimal place. -/
def ie_dist (store : Store) (year : ℤ) : Except PyError (ℚ × ℚ) :=
  let rs := store.filter (fun r => r.year == year)
  match sqlSUM (rs.map (fun r => r.imp)), sqlSUM (rs.map (fun r => r.expt)) with
  | some imports, some exports =>
    let total := imports + exports
    if total = 0 then Except.error PyError.zeroDivisionError
    else
      Except.ok (pyRound1 (imports / total * 100), pyRound1 (exports / total * 100))
  | _, _ => Except.error PyError.typeError

/-- A row of a DataFrame that carries `Imports` and `Exports` columns
plus whatever other columns the query produced (`extra`). -/
structure Row (α : Type) where
  imports : ℚ
  exports : ℚ
  extra : α
deriving DecidableEq, Repr

/-- A DataFrame carrying `Imports`/`Exports` columns. -/
abbrev Table (α : Type) := List (Row α)

/-- Model of `scale_ie`, value level: the two successive column assignments
`df["Imports"] = df["Imports"] / scale` and
`df["Exports"] = df["Exports"] / scale` applied to (a copy of) the
frame.  In the source the scale parameter defaults to one million; here
every call site passes the factor explicitly. -/
def scale_ie {α : Type} (df : Table α) (scale : ℚ) : Table α :=
  let df1 := df.map (fun r => { r with imports := r.imports / scale })
  df1.map (fun r => { r with exports := r.exports / scale })

/-- A heap of DataFrame objects, used to model pandas reference
semantics: an object identifier is an index into the heap. -/
abbrev DFHeap (α : Type) := List (Table α)

/-- Model of `df.copy()`: allocate a fresh object whose contents equal those of
object `i`; return the grown heap and the fresh identifier. -/
def dfCopy {α : Type} (h : DFHeap α) (i : ℕ) : DFHeap α × ℕ :=
  (h ++ [h.getD i []], h.length)

/-- Model of `df["Imports"] = df["Imports"] / scale`: in-place update of the
Imports column of object `i`. -/
def dfDivImports {α : Type} (h : DFHeap α) (i : ℕ) (scale : ℚ) : DFHeap α :=
  h.set i ((h.getD i []).map (fun r => { r with imports := r.imports / scale }))

/-- Model of `df["Exports"] = df["Exports"] / scale`: in-place update of the
Exports column of object `i`. -/
def dfDivExports {α : Type} (h : DFHeap α) (i : ℕ) (scale : ℚ) : DFHeap α :=
  h.set i ((h.getD i []).map (fun r => { r with exports := r.exports / scale }))

/-- Model of `scale_ie`, object level: `df = df.copy()` rebinds the local
name to a fresh object, the two column assignments mutate that fresh
object, and its identifier is returned.  The argument object is only
read. -/
def scale_ie_obj {α : Type} (h : DFHeap α) (i : ℕ) (scale : ℚ) :
    DFHeap α × ℕ :=
  let p := dfCopy h i
  let h1 := dfDivImports p.1 p.2 scale
  let h2 := dfDivExports h1 p.2 scale
  (h2, p.2)

/-- Model of `SELECT key, SUM(import) AS Imports, SUM(export) AS Exports ...
GROUP BY key` over the given rows: one output row per distinct key,
carrying the sums of the import and export columns of its group. -/
def groupAgg {κ : Type} [DecidableEq κ] (key : PortRecord → κ)
    (rs : List PortRecord) : Table κ :=
  ((rs.map key).dedup).map (fun k =>
    let g := rs.filter (fun r => key r = k)
    { imports := (g.map (fun r => r.imp)).sum,
      exports := (g.map (fun r => r.expt)).sum,
      extra := k })

/-- A row of the Yearly World Snapshot table: `ISO3`, scaled `Imports`
and `Exports`, and the derived `Trade` column. -/
structure WRow where
  iso3 : String
  imports : ℚ
  exports : ℚ
  trade : ℚ
deriving DecidableEq, Repr

/-- Model of `get_world_data`: the grouped-sum query by ISO3 restricted to the
given year, scaled by `scale_ie` at its default factor, with the
`Trade` column `df["Imports"] + df["Exports"]` appended. -/
def get_world_data (store : Store) (year : ℤ) : List WRow :=
  let df := scale_ie (groupAgg (fun r => r.iso3)
    (store.filter (fun r => r.year == year))) 1000000
  df.map (fun r =>
    { iso3 := r.extra, imports := r.imports, exports := r.exports,
      trade := r.imports + r.exports })

/-- A row of the Country Time Series table: scaled `Imports` and
`Exports`, the grouping columns `year` and `month`, the synthesized
`day` column (always 1) and the `Date` assembled from the three. -/
structure CRow where
  imports : ℚ
  exports : ℚ
  year : ℤ
  month : ℤ
  day : ℤ
  date : ℤ × ℤ × ℤ
deriving DecidableEq, Repr

/-- Model of `get_country_data`: the grouped-sum query by (year, month)
restricted to rows whose country column equals the argument exactly
(SQLite string equality under the default BINARY collation is
case-sensitive), scaled by `scale_ie`, then `df["day"] = 1` and
`df["Date"] = to_datetime(year, month, day)`. -/
def get_country_data (store : Store) (country : String) : List CRow :=
  let df := scale_ie (groupAgg (fun r => (r.year, r.month))
    (store.filter (fun r => r.country == country))) 1000000
  df.map (fun r =>
    { imports := r.imports, exports := r.exports,
      year := r.extra.1, month := r.extra.2, day := 1,
      date := (r.extra.1, r.extra.2, 1) })

/-- Model of `top_share`: `df["Trade"].max() / df["Trade"].sum() * 100`, rounded
to one decimal.  On an empty frame the pandas reduction `max` returns
the plain Python float nan while `sum` returns the plain Python int 0,
and the Python division `nan / 0` raises ZeroDivisionError.  On a
non-empty frame both reductions return numpy float64 scalars, whose
division by zero yields nan (for `0 / 0`) or a signed infinity with a
RuntimeWarning but no exception. -/
def top_share (df : List WRow) : Except PyError NFloat :=
  match df.map (fun r => r.trade) with
  | [] => Except.error PyError.zeroDivisionError
  | t :: ts =>
    let max_trade := ts.foldl max t
    let sum_trade := (t :: ts).sum
    Except.ok (nfRound1 (nfMul100 (nfDivQ max_trade sum_trade)))

/-- The example store of the spec: records
(2025, 3, "USA", "USA", 100, 500, 300) and
(2025, 3, "Canada", "CAN", 50, 200, 100). -/
def exampleStore : Store :=
  [⟨2025, 3, "USA", "USA", 100, 500, 300⟩,
   ⟨2025, 3, "Canada", "CAN", 50, 200, 100⟩]

/-- A store whose single record for 2025 has zero import and zero
export: a zero-trade year. -/
def zeroStore : Store :=
  [⟨2025, 3, "Nowhere", "NWH", 5, 0, 0⟩]

/-- A store whose records carry the years 2025, 1999, 2010, 1999, 2025,
2003 in scan order: the distinct years come back unsorted. -/
def scanStore : Store :=
  [⟨2025, 1, "A", "AAA", 1, 0, 0⟩,
   ⟨1999, 2, "B", "BBB", 1, 0, 0⟩,
   ⟨2010, 3, "C", "CCC", 1, 0, 0⟩,
   ⟨1999, 4, "D", "DDD", 1, 0, 0⟩,
   ⟨2025, 5, "E", "EEE", 1, 0, 0⟩,
   ⟨2003, 6, "F", "FFF", 1, 0, 0⟩]

/-- A non-empty snapshot table whose Trade values are all zero. -/
def zeroSnapshot : List WRow :=
  [⟨"AAA", 0, 0, 0⟩]

/-- A one-object heap holding a one-row frame, for exercising the
object-level scaling. -/
def exampleHeap : DFHeap String :=
  [[⟨6, 8, "x"⟩]]

/-- A one-row frame with an extra column, for exercising the scaling
round trip. -/
def exampleFrame : Table String :=
  [⟨6, 8, "x"⟩]

section Helpers

/-- The left fold of `max` over a list returns one of the elements of
the seed-extended list. -/
theorem foldl_max_mem (a : ℚ) (l : List ℚ) : l.foldl max a ∈ a :: l := by
  induction l generalizing a with
  | nil => simp
  | cons b t ih =>
    have h := ih (max a b)
    rcases List.mem_cons.1 h with h1 | h1
    · simp only [List.foldl_cons]
      rw [h1]
      rcases max_choice a b with hm | hm <;> rw [hm] <;> simp
    · simp only [List.foldl_cons]
      exact List.mem_cons_of_mem _ (List.mem_cons_of_mem _ h1)

/-- Every element of the seed-extended list is at most the left fold of
`max` over the list. -/
theorem le_foldl_max (a : ℚ) (l : List ℚ) : ∀ x ∈ a :: l, x ≤ l.foldl max a := by
  induction l generalizing a with
  | nil => simp
  | cons b t ih =>
    intro x hx
    simp only [List.foldl_cons]
    rcases List.mem_cons.1 hx with h1 | hx1
    · rw [h1]
      exact le_trans (le_max_left a b) (ih (max a b) _ (List.mem_cons_self _ _))
    · rcases List.mem_cons.1 hx1 with h2 | hx2
      · rw [h2]
        exact le_trans (le_max_right a b) (ih (max a b) _ (List.mem_cons_self _ _))
      · exact ih (max a b) x (List.mem_cons_of_mem _ hx2)

/-- The function `roundHalfEven` maps a non-negative number to a non-negative integer. -/
theorem roundHalfEven_nonneg {q : ℚ} (hq : 0 ≤ q) : 0 ≤ roundHalfEven q := by
  have hf : (0 : ℤ) ≤ ⌊q⌋ := Int.le_floor.2 (by simpa using hq)
  unfold roundHalfEven
  split
  · exact hf
  · split
    · omega
    · split
      · exact hf
      · omega

/-- The function `roundHalfEven` never exceeds an integer bound that the argument
respects. -/
theorem roundHalfEven_le {q : ℚ} {n : ℤ} (hq : q ≤ (n : ℚ)) :
    roundHalfEven q ≤ n := by
  have hf : ⌊q⌋ ≤ n := by
    have := Int.floor_le_floor hq
    simpa using this
  have hfl : (⌊q⌋ : ℚ) ≤ q := Int.floor_le q
  unfold roundHalfEven
  split
  · exact hf
  · rename_i h1
    push_neg at h1
    have hstep : (⌊q⌋ : ℚ) + 1 / 2 ≤ q := by linarith
    have : (⌊q⌋ : ℚ) < (n : ℚ) := by linarith
    have hlt : ⌊q⌋ < n := by exact_mod_cast this
    split
    · omega
    · split
      · exact hf
      · omega

/-- The function `pyRound1` keeps a number in `[0, 100]` inside `[0, 100]`. -/
theorem pyRound1_mem_Icc {q : ℚ} (h0 : 0 ≤ q) (h1 : q ≤ 100) :
    0 ≤ pyRound1 q ∧ pyRound1 q ≤ 100 := by
  have hn : (0 : ℤ) ≤ roundHalfEven (q * 10) :=
    roundHalfEven_nonneg (by positivity)
  have hl : roundHalfEven (q * 10) ≤ (1000 : ℤ) :=
    roundHalfEven_le (by push_cast; linarith)
  constructor
  · unfold pyRound1
    have : (0 : ℚ) ≤ (roundHalfEven (q * 10) : ℚ) := by exact_mod_cast hn
    positivity
  · unfold pyRound1
    have : ((roundHalfEven (q * 10) : ℚ)) ≤ 1000 := by exact_mod_cast hl
    linarith

/-- The key column of a grouped-sum query lists the distinct keys of
the input rows. -/
theorem groupAgg_keys {κ : Type} [DecidableEq κ] (key : PortRecord → κ)
    (rs : List PortRecord) :
    (groupAgg key rs).map (fun r => r.extra) = (rs.map key).dedup := by
  unfold groupAgg
  rw [List.map_map]
  have hcomp : ((fun (r : Row κ) => r.extra) ∘ fun k =>
      ({ imports := ((rs.filter (fun r => key r = k)).map (fun r => r.imp)).sum,
         exports := ((rs.filter (fun r => key r = k)).map (fun r => r.expt)).sum,
         extra := k } : Row κ)) = id := by
    funext k
    rfl
  rw [hcomp, List.map_id]

/-- Every row of a grouped-sum query carries the sums of the import and
export columns of the group selected by its key. -/
theorem groupAgg_mem {κ : Type} [DecidableEq κ] {key : PortRecord → κ}
    {rs : List PortRecord} {row : Row κ} (h : row ∈ groupAgg key rs) :
    row.extra ∈ (rs.map key).dedup ∧
    row.imports = ((rs.filter (fun r => key r = row.extra)).map (fun r => r.imp)).sum ∧
    row.exports = ((rs.filter (fun r => key r = row.extra)).map (fun r => r.expt)).sum := by
  obtain ⟨k, hk, hrow⟩ := List.mem_map.1 h
  subst hrow
  simpa using hk

/-- The function `get_world_data` written as a single row-wise map over the grouped
query: scaling divides both columns by one million and the Trade column
is the sum of the scaled columns. -/
theorem get_world_data_eq (store : Store) (year : ℤ) :
    get_world_data store year =
      (groupAgg (fun r => r.iso3) (store.filter (fun r => r.year == year))).map
        (fun r =>
          { iso3 := r.extra, imports := r.imports / 1000000,
            exports := r.exports / 1000000,
            trade := r.imports / 1000000 + r.exports / 1000000 }) := by
  simp [get_world_data, scale_ie, List.map_map]

/-- The function `get_country_data` written as a single row-wise map over the grouped
query. -/
theorem get_country_data_eq (store : Store) (country : String) :
    get_country_data store country =
      (groupAgg (fun r => (r.year, r.month)) (store.filter (fun r => r.country == country))).map
        (fun r =>
          { imports := r.imports / 1000000, exports := r.exports / 1000000,
            year := r.extra.1, month := r.extra.2, day := 1,
            date := (r.extra.1, r.extra.2, 1) }) := by
  simp [get_country_data, scale_ie, List.map_map]

/-- Evaluation of the world snapshot on the example store of the spec. -/
theorem worldExampleEval :
    get_world_data exampleStore 2025 =
      [⟨"USA", 5 / 10000, 3 / 10000, 8 / 10000⟩,
       ⟨"CAN", 2 / 10000, 1 / 10000, 3 / 10000⟩] := by
  simp [get_world_data, exampleStore, groupAgg, scale_ie, List.dedup]
  norm_num

/-- Evaluation of `top_share` on that example snapshot: 72.7 percent. -/
theorem topShareExampleEval :
    top_share (get_world_data exampleStore 2025) =
      Except.ok (NFloat.val (727 / 10)) := by
  simp [top_share, get_world_data, exampleStore, groupAgg, scale_ie, List.dedup,
    nfDivQ, nfMul100, nfRound1, pyRound1, roundHalfEven]
  norm_num [Int.fract]

end Helpers

/-- The duplicate-filtering fold behind `sqlDISTINCT` preserves
freedom from duplicates of its accumulator. -/
theorem sqlDISTINCT_fold_nodup {α : Type} [DecidableEq α] :
    ∀ (xs acc : List α), acc.Nodup →
      (xs.foldl (fun acc y => if y ∈ acc then acc else acc ++ [y]) acc).Nodup := by
  intro xs
  induction xs with
  | nil =>
    intro acc h
    simpa using h
  | cons x t ih =>
    intro acc h
    simp only [List.foldl_cons]
    by_cases hx : x ∈ acc
    · rw [if_pos hx]
      exact ih acc h
    · rw [if_neg hx]
      apply ih
      simp [List.nodup_append, h, hx]

/-- The elements of the duplicate-filtering fold are those of the
accumulator together with those of the scanned list. -/
theorem sqlDISTINCT_fold_mem {α : Type} [DecidableEq α] :
    ∀ (xs acc : List α) (y : α),
      y ∈ xs.foldl (fun acc y => if y ∈ acc then acc else acc ++ [y]) acc ↔
        y ∈ acc ∨ y ∈ xs := by
  intro xs
  induction xs with
  | nil =>
    intro acc y
    simp
  | cons x t ih =>
    intro acc y
    simp only [List.foldl_cons]
    by_cases hx : x ∈ acc
    · rw [if_pos hx, ih]
      constructor
      · rintro (h | h)
        · exact Or.inl h
        · exact Or.inr (List.mem_cons_of_mem _ h)
      · rintro (h | h)
        · exact Or.inl h
        · rcases List.mem_cons.1 h with h1 | h1
          · exact Or.inl (h1 ▸ hx)
          · exact Or.inr h1
    · rw [if_neg hx, ih]
      simp only [List.mem_append, List.mem_cons, List.mem_singleton]
      tauto

/-- C6 counterexample: on the scan-order store the distinct years come
back as [2025, 1999, 2010, 2003] — first-occurrence order, which is not
sorted, refuting the sortedness part of the claim. -/
theorem load_years_not_sorted_cex :
    load_years scanStore = [2025, 1999, 2010, 2003] ∧
    ¬ (load_years scanStore).Sorted (· ≤ ·) := by
  have h : load_years scanStore = [2025, 1999, 2010, 2003] := by
    simp [load_years, sqlDISTINCT, scanStore]
  refine ⟨h, ?_⟩
  rw [h]
  decide

/-- C6 (amended): `load_years` returns the distinct integer years of the
store — each year exactly once, listed exactly when some record carries
it — in first-occurrence scan order, deduplicated but not necessarily
sorted; on the scan-order store the years come back as
[2025, 1999, 2010, 2003].  The function reads the store and nothing
else, so it has no side effects. -/
theorem distinct_years_scan_order : ∀ store : Store,
    (load_years store).Nodup ∧
    (∀ y : ℤ, y ∈ load_years store ↔ ∃ r ∈ store, r.year = y) ∧
    load_years scanStore = [2025, 1999, 2010, 2003] := by
  intro store
  refine ⟨sqlDISTINCT_fold_nodup _ _ List.nodup_nil, ?_, ?_⟩
  · intro y
    unfold load_years sqlDISTINCT
    rw [sqlDISTINCT_fold_mem]
    simp
  · simp [load_years, sqlDISTINCT, scanStore]

/-- C4: `total_ships` sums `portcalls` over the records of the matching
year, returns NULL (`none`) when no record matches, and — since the
data model keeps `portcalls` non-negative — its result on any year is
either `none` or a non-negative integer. -/
theorem total_ships_spec : ∀ (store : Store) (year : ℤ),
    (store.filter (fun r => r.year == year) = [] → total_ships store year = none) ∧
    (store.filter (fun r => r.year == year) ≠ [] →
      total_ships store year =
        some (((store.filter (fun r => r.year == year)).map (fun r => r.portcalls)).sum)) ∧
    ((∀ r ∈ store, 0 ≤ r.portcalls) →
      total_ships store year = none ∨
        ∃ n : ℤ, total_ships store year = some n ∧ 0 ≤ n) := by
  intro store year
  refine ⟨?_, ?_, ?_⟩
  · intro h
    simp [total_ships, h, sqlSUMInt]
  · intro h
    cases hf : store.filter (fun r => r.year == year) with
    | nil => exact absurd hf h
    | cons a t => simp [total_ships, hf, sqlSUMInt]
  · intro hpos
    cases hf : store.filter (fun r => r.year == year) with
    | nil =>
      left
      simp [total_ships, hf, sqlSUMInt]
    | cons a t =>
      right
      refine ⟨((a :: t).map (fun r => r.portcalls)).sum, ?_, ?_⟩
      · simp [total_ships, hf, sqlSUMInt]
      · apply List.sum_nonneg
        intro x hx
        obtain ⟨r, hr, hxv⟩ := List.mem_map.1 hx
        have hrf : r ∈ store.filter (fun r => r.year == year) := by
          rw [hf]; exact hr
        exact hxv ▸ hpos r (List.mem_of_mem_filter hrf)

/-- C4 witness: on the example store, 1999 has no records and yields
NULL, while 2025 yields 100 + 50 = 150 port calls. -/
theorem total_ships_spec_witness :
    total_ships exampleStore 1999 = none ∧
    total_ships exampleStore 2025 = some 150 := by
  constructor
  · exact (total_ships_spec exampleStore 1999).1 (by simp [exampleStore])
  · have h := (total_ships_spec exampleStore 2025).2.1 (by simp [exampleStore])
    rw [h]
    norm_num [exampleStore]

/-- C10: on a year with no matching records both SQL sums are NULL, and
`ie_dist` raises the Python TypeError for `None + None` before any
division is attempted — it returns neither a percentage pair nor
null. -/
theorem ie_dist_no_rows : ∀ (store : Store) (year : ℤ),
    store.filter (fun r => r.year == year) = [] →
    ie_dist store year = Except.error PyError.typeError := by
  intro store year h
  simp [ie_dist, h, sqlSUM]

/-- C10 witness: the example store has no records for 1999. -/
theorem ie_dist_no_rows_witness :
    ie_dist exampleStore 1999 = Except.error PyError.typeError :=
  ie_dist_no_rows exampleStore 1999 (by simp [exampleStore])

/-- C1 (amended): on a year that has matching records whose combined
total of import plus export is zero, `ie_dist` raises the Python built-in
ZeroDivisionError coming from the unguarded division — there is no
explicit guard producing a distinct DivisionUndefined condition. -/
theorem ie_dist_zero_total : ∀ (store : Store) (year : ℤ),
    store.filter (fun r => r.year == year) ≠ [] →
    ((store.filter (fun r => r.year == year)).map (fun r => r.imp)).sum +
      ((store.filter (fun r => r.year == year)).map (fun r => r.expt)).sum = 0 →
    ie_dist store year = Except.error PyError.zeroDivisionError := by
  intro store year hne h0
  cases hf : store.filter (fun r => r.year == year) with
  | nil => exact absurd hf hne
  | cons a t =>
    rw [hf] at h0
    simp only [List.map_cons, List.sum_cons] at h0
    simp [ie_dist, hf, sqlSUM, h0]

/-- C1 counterexample: on the zero-trade store the result is the
built-in ZeroDivisionError, not the distinct DivisionUndefined error
the claim promises. -/
theorem ie_dist_zero_total_cex :
    ie_dist zeroStore 2025 ≠ Except.error PyError.divisionUndefined ∧
    ie_dist zeroStore 2025 = Except.error PyError.zeroDivisionError := by
  have h : ie_dist zeroStore 2025 = Except.error PyError.zeroDivisionError := by
    simp [ie_dist, zeroStore, sqlSUM]
  refine ⟨?_, h⟩
  rw [h]
  simp

/-- C1 witness: the amended statement applied to the zero-trade
store. -/
theorem ie_dist_zero_total_witness :
    ie_dist zeroStore 2025 = Except.error PyError.zeroDivisionError :=
  ie_dist_zero_total zeroStore 2025 (by simp [zeroStore]) (by simp [zeroStore])

/-- C2 (amended): on an empty snapshot table `top_share` raises the
Python built-in ZeroDivisionError (the empty-frame reductions produce a
plain float nan and a plain int 0, and `nan / 0` raises); on a
non-empty table whose Trade values are all zero it raises nothing and
returns the numpy value nan, produced by the float64 division `0 / 0`.
In neither case is a distinct DivisionUndefined error produced. -/
theorem top_share_degenerate : ∀ df : List WRow,
    (df = [] → top_share df = Except.error PyError.zeroDivisionError) ∧
    (df ≠ [] → (∀ w ∈ df, w.trade = 0) → top_share df = Except.ok NFloat.nan) := by
  intro df
  constructor
  · intro h
    subst h
    rfl
  · intro hne hz
    cases df with
    | nil => exact absurd rfl hne
    | cons d ds =>
      have hall : ∀ x ∈ d.trade :: ds.map (fun r => r.trade), x = 0 := by
        intro x hx
        rcases List.mem_cons.1 hx with h1 | h1
        · rw [h1]
          exact hz d (List.mem_cons_self _ _)
        · obtain ⟨w, hw, hxv⟩ := List.mem_map.1 h1
          rw [← hxv]
          exact hz w (List.mem_cons_of_mem _ hw)
      have hmax : (ds.map (fun r => r.trade)).foldl max d.trade = 0 :=
        hall _ (foldl_max_mem d.trade (ds.map (fun r => r.trade)))
      have hsum : (d.trade :: ds.map (fun r => r.trade)).sum = 0 :=
        List.sum_eq_zero hall
      simp only [top_share, List.map_cons]
      rw [hmax, hsum]
      simp [nfDivQ, nfMul100, nfRound1]

/-- C2 counterexample: on a non-empty all-zero snapshot `top_share`
returns the numeric result nan instead of failing with
DivisionUndefined. -/
theorem top_share_degenerate_cex :
    top_share zeroSnapshot = Except.ok NFloat.nan ∧
    top_share zeroSnapshot ≠ Except.error PyError.divisionUndefined := by
  have h : top_share zeroSnapshot = Except.ok NFloat.nan := by
    simp [top_share, zeroSnapshot, nfDivQ, nfMul100, nfRound1]
  refine ⟨h, ?_⟩
  rw [h]
  simp

/-- C2 witness: the amended statement applied to the empty table and to
the all-zero one-row table. -/
theorem top_share_degenerate_witness :
    top_share ([] : List WRow) = Except.error PyError.zeroDivisionError ∧
    top_share zeroSnapshot = Except.ok NFloat.nan := by
  constructor
  · exact (top_share_degenerate []).1 rfl
  · exact (top_share_degenerate zeroSnapshot).2 (by simp [zeroSnapshot])
      (by intro w hw; simp [zeroSnapshot] at hw; subst hw; rfl)

/-- The two successive column assignments of `scale_ie` are one row-wise
map dividing both columns. -/
theorem scale_ie_eq_map {α : Type} (df : Table α) (k : ℚ) :
    scale_ie df k =
      df.map (fun r =>
        { r with imports := r.imports / k, exports := r.exports / k }) := by
  unfold scale_ie
  rw [List.map_map]
  congr 1

/-- C7: scaling by a non-zero factor `k` and then by `1 / k` restores
every Imports and Exports value — exactly, since the embedding computes
with exact rationals, hence in particular within floating-point
tolerance. -/
theorem scale_ie_roundtrip : ∀ (α : Type) (df : Table α) (k : ℚ), k ≠ 0 →
    scale_ie (scale_ie df k) (1 / k) = df := by
  intro α df k hk
  rw [scale_ie_eq_map, scale_ie_eq_map, List.map_map]
  have hfun : ((fun r : Row α =>
        { r with imports := r.imports / (1 / k), exports := r.exports / (1 / k) }) ∘
      fun r : Row α =>
        { r with imports := r.imports / k, exports := r.exports / k }) = id := by
    funext r
    cases r with
    | mk i e x =>
      simp [Function.comp]
      exact ⟨div_mul_cancel₀ _ hk, div_mul_cancel₀ _ hk⟩
  rw [hfun, List.map_id]

/-- C7 witness: the round trip at factor 2 on a one-row frame. -/
theorem scale_ie_roundtrip_witness :
    scale_ie (scale_ie exampleFrame 2) (1 / 2) = exampleFrame :=
  scale_ie_roundtrip String exampleFrame 2 (by norm_num)

/-- C8: the object-level `scale_ie` leaves the argument frame exactly as
it was (the heap cell of the input still holds its old value), returns a
fresh object distinct from the input, and that fresh object holds the
input rows with both columns divided by the factor — value semantics
with no aliasing between input and output. -/
theorem scale_ie_no_aliasing : ∀ (α : Type) (h : DFHeap α) (i : ℕ) (k : ℚ),
    i < h.length →
    ((scale_ie_obj h i k).1)[i]? = h[i]? ∧
    (scale_ie_obj h i k).2 ≠ i ∧
    ((scale_ie_obj h i k).1)[(scale_ie_obj h i k).2]? =
      some (scale_ie (h.getD i []) k) := by
  intro α h i k hi
  have hne : h.length ≠ i := Nat.ne_of_gt hi
  have hlen : h.length < (h ++ [h.getD i []]).length := by
    simp
  have happ : (h ++ [h.getD i []])[h.length]? = some (h.getD i []) :=
    List.getElem?_concat_length _ _
  constructor
  · simp only [scale_ie_obj, dfCopy, dfDivImports, dfDivExports]
    rw [List.getElem?_set_ne hne, List.getElem?_set_ne hne,
      List.getElem?_append_left hi]
  · constructor
    · simp only [scale_ie_obj, dfCopy]
      exact hne
    · simp only [scale_ie_obj, dfCopy, dfDivImports, dfDivExports]
      have hD0 : (h ++ [h.getD i []]).getD h.length [] = h.getD i [] := by
        rw [List.getD_eq_getElem?_getD, happ]
        rfl
      rw [hD0]
      have hset1 : ((h ++ [h.getD i []]).set h.length
          ((h.getD i []).map (fun r => { r with imports := r.imports / k }))).getD
            h.length [] =
          (h.getD i []).map (fun r => { r with imports := r.imports / k }) := by
        rw [List.getD_eq_getElem?_getD, List.getElem?_set_self]
        · rfl
        · exact hlen
      rw [hset1]
      rw [List.getElem?_set_self]
      · rfl
      · simp

/-- C8 witness: the no-aliasing statement on a one-object heap at
factor 2. -/
theorem scale_ie_no_aliasing_witness :
    ((scale_ie_obj exampleHeap 0 2).1)[0]? = exampleHeap[0]? ∧
    (scale_ie_obj exampleHeap 0 2).2 ≠ 0 ∧
    ((scale_ie_obj exampleHeap 0 2).1)[(scale_ie_obj exampleHeap 0 2).2]? =
      some (scale_ie (exampleHeap.getD 0 []) 2) :=
  scale_ie_no_aliasing String exampleHeap 0 2 (by simp [exampleHeap])

/-- Evaluation of the country series for "Canada" on the example
store. -/
theorem countryExampleEval :
    get_country_data exampleStore "Canada" =
      [⟨2 / 10000, 1 / 10000, 2025, 3, 1, (2025, 3, 1)⟩] := by
  simp [get_country_data, exampleStore, groupAgg, scale_ie, List.dedup]
  norm_num

/-- C3: `get_world_data` yields one row per ISO3 code among the records
of the requested year, with Imports and Exports the per-ISO3 sums
divided by one million and Trade their sum; on the example store of the
spec it yields the USA row (0.0005, 0.0003, 0.0008) and the CAN row
(0.0002, 0.0001, 0.0003), and `top_share` of that table is 72.7. -/
theorem world_snapshot_spec : ∀ (store : Store) (year : ℤ),
    ((get_world_data store year).map (fun w => w.iso3) =
      ((store.filter (fun r => r.year == year)).map (fun r => r.iso3)).dedup) ∧
    (∀ w ∈ get_world_data store year,
      w.imports = (((store.filter (fun r => r.year == year)).filter
          (fun r => r.iso3 = w.iso3)).map (fun r => r.imp)).sum / 1000000 ∧
      w.exports = (((store.filter (fun r => r.year == year)).filter
          (fun r => r.iso3 = w.iso3)).map (fun r => r.expt)).sum / 1000000 ∧
      w.trade = w.imports + w.exports) ∧
    get_world_data exampleStore 2025 =
      [⟨"USA", 5 / 10000, 3 / 10000, 8 / 10000⟩,
       ⟨"CAN", 2 / 10000, 1 / 10000, 3 / 10000⟩] ∧
    top_share (get_world_data exampleStore 2025) =
      Except.ok (NFloat.val (727 / 10)) := by
  intro store year
  refine ⟨?_, ?_, worldExampleEval, topShareExampleEval⟩
  · rw [get_world_data_eq, List.map_map]
    exact groupAgg_keys (fun r => r.iso3) _
  · intro w hw
    rw [get_world_data_eq] at hw
    obtain ⟨row, hrow, hw2⟩ := List.mem_map.1 hw
    obtain ⟨-, him, hex⟩ := groupAgg_mem hrow
    subst hw2
    dsimp only
    refine ⟨?_, ?_, rfl⟩
    · rw [him]
    · rw [hex]

/-- C3 witness: the row property and the 72.7 percent value of the
theorem, instantiated on the example store at the USA row. -/
theorem world_snapshot_spec_witness :
    ((⟨"USA", 5 / 10000, 3 / 10000, 8 / 10000⟩ : WRow).imports =
      (((exampleStore.filter (fun r => r.year == 2025)).filter
        (fun r => r.iso3 = "USA")).map (fun r => r.imp)).sum / 1000000) ∧
    top_share (get_world_data exampleStore 2025) =
      Except.ok (NFloat.val (727 / 10)) := by
  have h := world_snapshot_spec exampleStore 2025
  have hm : (⟨"USA", 5 / 10000, 3 / 10000, 8 / 10000⟩ : WRow) ∈
      get_world_data exampleStore 2025 := by
    rw [h.2.2.1]
    simp
  exact ⟨(h.2.1 _ hm).1, h.2.2.2⟩

/-- C5: `get_country_data` yields one row per (year, month) among the
records whose country column equals the argument exactly, with Imports
and Exports summed and divided by one million, the day column 1, and
the Date column the first calendar day of that (year, month). -/
theorem country_series_spec : ∀ (store : Store) (country : String),
    ((get_country_data store country).map (fun c => (c.year, c.month)) =
      ((store.filter (fun r => r.country == country)).map
        (fun r => (r.year, r.month))).dedup) ∧
    ∀ c ∈ get_country_data store country,
      c.imports = (((store.filter (fun r => r.country == country)).filter
          (fun r => (r.year, r.month) = (c.year, c.month))).map
            (fun r => r.imp)).sum / 1000000 ∧
      c.exports = (((store.filter (fun r => r.country == country)).filter
          (fun r => (r.year, r.month) = (c.year, c.month))).map
            (fun r => r.expt)).sum / 1000000 ∧
      c.day = 1 ∧ c.date = (c.year, c.month, 1) := by
  intro store country
  constructor
  · rw [get_country_data_eq, List.map_map]
    exact groupAgg_keys (fun r => (r.year, r.month)) _
  · intro c hc
    rw [get_country_data_eq] at hc
    obtain ⟨row, hrow, hc2⟩ := List.mem_map.1 hc
    obtain ⟨-, him, hex⟩ := groupAgg_mem hrow
    subst hc2
    dsimp only
    refine ⟨?_, ?_, rfl, rfl⟩
    · rw [him]
    · rw [hex]

/-- C5 witness: the row property instantiated on the example store at
country "Canada" and its single (2025, 3) row. -/
theorem country_series_spec_witness :
    (⟨2 / 10000, 1 / 10000, 2025, 3, 1, (2025, 3, 1)⟩ : CRow).imports =
      (((exampleStore.filter (fun r => r.country == "Canada")).filter
        (fun r => (r.year, r.month) = (2025, 3))).map
          (fun r => r.imp)).sum / 1000000 ∧
    (⟨2 / 10000, 1 / 10000, 2025, 3, 1, (2025, 3, 1)⟩ : CRow).day = 1 ∧
    (⟨2 / 10000, 1 / 10000, 2025, 3, 1, (2025, 3, 1)⟩ : CRow).date = (2025, 3, 1) := by
  have h := country_series_spec exampleStore "Canada"
  have hm : (⟨2 / 10000, 1 / 10000, 2025, 3, 1, (2025, 3, 1)⟩ : CRow) ∈
      get_country_data exampleStore "Canada" := by
    rw [countryExampleEval]
    simp
  have hr := h.2 _ hm
  exact ⟨hr.1, hr.2.2.1, hr.2.2.2⟩

/-- C9: on any store with non-negative import and export volumes, a
year whose world snapshot is non-empty and not all-zero gives a
`top_share` value between 0 and 100 inclusive. -/
theorem top_share_range : ∀ (store : Store) (year : ℤ),
    (∀ r ∈ store, 0 ≤ r.imp ∧ 0 ≤ r.expt) →
    get_world_data store year ≠ [] →
    (∃ w ∈ get_world_data store year, w.trade ≠ 0) →
    ∃ q : ℚ, top_share (get_world_data store year) = Except.ok (NFloat.val q) ∧
      0 ≤ q ∧ q ≤ 100 := by
  intro store year hpos hne hnz
  have htr : ∀ w ∈ get_world_data store year, 0 ≤ w.trade := by
    intro w hw
    rw [get_world_data_eq] at hw
    obtain ⟨row, hrow, hw2⟩ := List.mem_map.1 hw
    obtain ⟨-, him, hex⟩ := groupAgg_mem hrow
    subst hw2
    dsimp only
    have h1 : 0 ≤ row.imports := by
      rw [him]
      apply List.sum_nonneg
      intro x hx
      obtain ⟨r, hr, hxv⟩ := List.mem_map.1 hx
      have hrs : r ∈ store :=
        List.mem_of_mem_filter (List.mem_of_mem_filter hr)
      exact hxv ▸ (hpos r hrs).1
    have h2 : 0 ≤ row.exports := by
      rw [hex]
      apply List.sum_nonneg
      intro x hx
      obtain ⟨r, hr, hxv⟩ := List.mem_map.1 hx
      have hrs : r ∈ store :=
        List.mem_of_mem_filter (List.mem_of_mem_filter hr)
      exact hxv ▸ (hpos r hrs).2
    positivity
  cases hdf : get_world_data store year with
  | nil => exact absurd hdf hne
  | cons d ds =>
    have hallpos : ∀ x ∈ d.trade :: ds.map (fun r => r.trade), 0 ≤ x := by
      intro x hx
      rcases List.mem_cons.1 hx with h1 | h1
      · rw [h1]
        exact htr d (by rw [hdf]; exact List.mem_cons_self _ _)
      · obtain ⟨w, hw, hxv⟩ := List.mem_map.1 h1
        rw [← hxv]
        exact htr w (by rw [hdf]; exact List.mem_cons_of_mem _ hw)
    have hmax_mem := foldl_max_mem d.trade (ds.map (fun r => r.trade))
    have hmaxpos : 0 ≤ (ds.map (fun r => r.trade)).foldl max d.trade :=
      hallpos _ hmax_mem
    obtain ⟨w0, hw0, hw0nz⟩ := hnz
    have hw0mem : w0.trade ∈ d.trade :: ds.map (fun r => r.trade) := by
      rw [hdf] at hw0
      rcases List.mem_cons.1 hw0 with h1 | h1
      · rw [h1]
        exact List.mem_cons_self _ _
      · exact List.mem_cons_of_mem _ (List.mem_map.2 ⟨w0, h1, rfl⟩)
    have hw0pos : 0 < w0.trade :=
      lt_of_le_of_ne (hallpos _ hw0mem) (Ne.symm hw0nz)
    have hsumpos : 0 < (d.trade :: ds.map (fun r => r.trade)).sum :=
      lt_of_lt_of_le hw0pos (List.single_le_sum hallpos _ hw0mem)
    have hmaxle : (ds.map (fun r => r.trade)).foldl max d.trade ≤
        (d.trade :: ds.map (fun r => r.trade)).sum :=
      List.single_le_sum hallpos _ hmax_mem
    have hratio0 : 0 ≤ (ds.map (fun r => r.trade)).foldl max d.trade /
        (d.trade :: ds.map (fun r => r.trade)).sum * 100 := by
      have := div_nonneg hmaxpos hsumpos.le
      linarith
    have hratio1 : (ds.map (fun r => r.trade)).foldl max d.trade /
        (d.trade :: ds.map (fun r => r.trade)).sum * 100 ≤ 100 := by
      have hd1 : (ds.map (fun r => r.trade)).foldl max d.trade /
          (d.trade :: ds.map (fun r => r.trade)).sum ≤ 1 :=
        (div_le_one hsumpos).2 hmaxle
      linarith
    refine ⟨pyRound1 ((ds.map (fun r => r.trade)).foldl max d.trade /
      (d.trade :: ds.map (fun r => r.trade)).sum * 100), ?_, ?_, ?_⟩
    · have hsne : d.trade + (ds.map (fun r => r.trade)).sum ≠ 0 := by
        have h := hsumpos.ne'
        simpa using h
      simp only [top_share, List.map_cons]
      simp [nfDivQ, hsne, nfMul100, nfRound1]
    · exact (pyRound1_mem_Icc hratio0 hratio1).1
    · exact (pyRound1_mem_Icc hratio0 hratio1).2

/-- C9 witness: on the example store in 2025 the top share is a value
in [0, 100]. -/
theorem top_share_range_witness :
    ∃ q : ℚ, top_share (get_world_data exampleStore 2025) =
      Except.ok (NFloat.val q) ∧ 0 ≤ q ∧ q ≤ 100 :=
  top_share_range exampleStore 2025
    (by
      intro r hr
      simp [exampleStore] at hr
      rcases hr with h | h <;> subst h <;> norm_num)
    (by rw [worldExampleEval]; simp)
    ⟨⟨"USA", 5 / 10000, 3 / 10000, 8 / 10000⟩,
      by rw [worldExampleEval]; simp, by norm_num⟩

end TradeAPI
